import Mathlib

/-!
Verification development for the symfocus repository.

Part 1 models the streaming-completion consumer of `src/llm.ts`
(`streamOpenAIChat`): the stateful incremental UTF-8 text decoding
(the platform `TextDecoder` the loop instantiates at line 130), the
line carry buffer (`buffer`, lines 131/183-186), the per-line event
decoding of the read loop (lines 188-222), the fallback raw-body
accumulation (`fallbackBuffer`, lines 132/180-182), the natural-end
handling (lines 146-177) and the error exits.  Strings are modelled
as `List Char`; byte streams as `List Nat`.

The two places where the loop calls the platform `JSON.parse` are kept
abstract, as function parameters: `pd` models
`(json => JSON.parse(json)?.choices?.[0]?.delta?.content)` returning
`some c` exactly when that field is a string (lines 202-207 and
163-168), and `pm` models
`(body => JSON.parse(body)?.choices?.[0]?.message?.content)`
(lines 151-155).  Every theorem below holds for all such parsers.
-/

/-- State of the WHATWG incremental UTF-8 decoder (the platform
`TextDecoder` with `stream: true` used at `llm.ts:130/179`):
collected code point bits, number of continuation bytes still needed,
number seen so far, and the admissible range for the next byte. -/
structure Utf8State where
  cp : Nat
  needed : Nat
  seen : Nat
  lo : Nat
  hi : Nat
deriving DecidableEq, Repr

/-- Initial (between code points) decoder state. -/
def utf8Init : Utf8State := ⟨0, 0, 0, 0x80, 0xBF⟩

/-- U+FFFD, emitted by the decoder on malformed input. -/
def replacementChar : Char := Char.ofNat 0xFFFD

/-- One byte handed to the decoder while in the initial state
(WHATWG UTF-8 decode, leading-byte case). -/
def utf8StepStart (b : Nat) : Utf8State × List Char :=
  if b ≤ 0x7F then (utf8Init, [Char.ofNat b])
  else if 0xC2 ≤ b ∧ b ≤ 0xDF then
    (⟨b % 32, 1, 0, 0x80, 0xBF⟩, [])
  else if 0xE0 ≤ b ∧ b ≤ 0xEF then
    (⟨b % 16, 2, 0, if b = 0xE0 then 0xA0 else 0x80,
      if b = 0xED then 0x9F else 0xBF⟩, [])
  else if 0xF0 ≤ b ∧ b ≤ 0xF4 then
    (⟨b % 8, 3, 0, if b = 0xF0 then 0x90 else 0x80,
      if b = 0xF4 then 0x8F else 0xBF⟩, [])
  else (utf8Init, [replacementChar])

/-- One byte handed to the decoder (WHATWG UTF-8 decode).  An invalid
continuation byte emits U+FFFD and is then reprocessed as a lead. -/
def utf8Step (s : Utf8State) (b : Nat) : Utf8State × List Char :=
  if s.needed = 0 then utf8StepStart b
  else if s.lo ≤ b ∧ b ≤ s.hi then
    let cp := s.cp * 64 + b % 64
    if s.seen + 1 = s.needed then (utf8Init, [Char.ofNat cp])
    else (⟨cp, s.needed, s.seen + 1, 0x80, 0xBF⟩, [])
  else
    let r := utf8StepStart b
    (r.1, replacementChar :: r.2)

/-- Streaming decode of one block of bytes, threading the decoder
state (`decoder.decode(value, { stream: true })`, `llm.ts:179`). -/
def utf8DecodeChunk : Utf8State → List Nat → Utf8State × List Char
  | s, [] => (s, [])
  | s, b :: bs =>
    let r := utf8Step s b
    let rest := utf8DecodeChunk r.1 bs
    (rest.1, r.2 ++ rest.2)

theorem utf8DecodeChunk_append (s : Utf8State) (a b : List Nat) :
    utf8DecodeChunk s (a ++ b) =
      ((utf8DecodeChunk (utf8DecodeChunk s a).1 b).1,
       (utf8DecodeChunk s a).2 ++ (utf8DecodeChunk (utf8DecodeChunk s a).1 b).2) := by
  induction a generalizing s with
  | nil => simp [utf8DecodeChunk]
  | cons x xs ih =>
    simp only [List.cons_append, utf8DecodeChunk, List.append_eq]
    rw [ih]
    simp [List.append_assoc]

/-- Last element of a list of lines (`lines[lines.length - 1]`,
`llm.ts:186`), defaulting to the empty line. -/
def lastLine : List (List Char) → List Char
  | [] => []
  | x :: xs => match xs with
    | [] => x
    | y :: ys => lastLine (y :: ys)

/-- All lines except the last (the complete lines iterated at
`llm.ts:188`). -/
def frontLines : List (List Char) → List (List Char)
  | [] => []
  | x :: xs => match xs with
    | [] => []
    | y :: ys => x :: frontLines (y :: ys)

theorem lastLine_cons (x : List Char) (r : List (List Char)) (h : r ≠ []) :
    lastLine (x :: r) = lastLine r := by
  cases r with
  | nil => exact absurd rfl h
  | cons y ys => rfl

theorem frontLines_cons (x : List Char) (r : List (List Char)) (h : r ≠ []) :
    frontLines (x :: r) = x :: frontLines r := by
  cases r with
  | nil => exact absurd rfl h
  | cons y ys => rfl

/-- `buffer.split("\n")` (`llm.ts:184`): JavaScript `String.split`
on a single-character separator; always returns a non-empty list. -/
def splitLinesL : List Char → List (List Char)
  | [] => [[]]
  | c :: cs =>
    let r := splitLinesL cs
    if c = '\n' then [] :: r else (c :: r.headD []) :: r.tail

theorem splitLinesL_ne_nil (s : List Char) : splitLinesL s ≠ [] := by
  cases s with
  | nil => simp [splitLinesL]
  | cons c cs => simp only [splitLinesL]; split <;> simp

/-- Gluing of split results across an append boundary. -/
def glueSplit (l1 l2 : List (List Char)) : List (List Char) :=
  frontLines l1 ++ (lastLine l1 ++ l2.headD []) :: l2.tail

theorem glueSplit_cons (x : List Char) (r l2 : List (List Char)) (h : r ≠ []) :
    glueSplit (x :: r) l2 = x :: glueSplit r l2 := by
  simp [glueSplit, frontLines_cons x r h, lastLine_cons x r h]

theorem glueSplit_ne_nil (l1 l2 : List (List Char)) : glueSplit l1 l2 ≠ [] := by
  simp [glueSplit]

theorem splitLinesL_cons (c : Char) (cs : List Char) :
    splitLinesL (c :: cs) = if c = '\n' then [] :: splitLinesL cs
      else (c :: (splitLinesL cs).headD []) :: (splitLinesL cs).tail := rfl

theorem splitLinesL_append (a b : List Char) :
    splitLinesL (a ++ b) = glueSplit (splitLinesL a) (splitLinesL b) := by
  induction a with
  | nil =>
    simp only [List.nil_append]
    cases hb : splitLinesL b with
    | nil => exact absurd hb (splitLinesL_ne_nil b)
    | cons x xs => simp [splitLinesL, glueSplit, frontLines, lastLine]
  | cons c cs ih =>
    rw [List.cons_append, splitLinesL_cons, splitLinesL_cons, ih]
    by_cases hc : c = '\n'
    · rw [if_pos hc, if_pos hc]
      exact (glueSplit_cons [] (splitLinesL cs) (splitLinesL b)
        (splitLinesL_ne_nil cs)).symm
    · rw [if_neg hc, if_neg hc]
      cases hr : splitLinesL cs with
      | nil => exact absurd hr (splitLinesL_ne_nil cs)
      | cons x xs =>
        cases xs with
        | nil =>
          cases hb : splitLinesL b with
          | nil => exact absurd hb (splitLinesL_ne_nil b)
          | cons z zs => simp [glueSplit, frontLines, lastLine]
        | cons y ys =>
          rw [glueSplit_cons x (y :: ys) (splitLinesL b) (by simp)]
          simp only [List.headD_cons, List.tail_cons]
          rw [glueSplit_cons (c :: x) (y :: ys) (splitLinesL b) (by simp)]

theorem splitLinesL_lastLine_no_newline (s : List Char) :
    '\n' ∉ lastLine (splitLinesL s) := by
  induction s with
  | nil => simp [splitLinesL, lastLine]
  | cons c cs ih =>
    simp only [splitLinesL]
    by_cases hc : c = '\n'
    · rw [if_pos hc, lastLine_cons [] (splitLinesL cs) (splitLinesL_ne_nil cs)]
      exact ih
    · rw [if_neg hc]
      cases hr : splitLinesL cs with
      | nil => exact absurd hr (splitLinesL_ne_nil cs)
      | cons x xs =>
        rw [hr] at ih
        cases xs with
        | nil =>
          simp only [List.headD_cons, List.tail_cons, lastLine]
          simp only [lastLine] at ih
          simp only [List.mem_cons, not_or]
          exact ⟨fun h => hc h.symm, ih⟩
        | cons y ys =>
          simp only [List.headD_cons, List.tail_cons]
          rw [lastLine_cons (c :: x) (y :: ys) (by simp)]
          rw [lastLine_cons x (y :: ys) (by simp)] at ih
          exact ih

theorem splitLinesL_no_newline (s : List Char) (h : '\n' ∉ s) :
    splitLinesL s = [s] := by
  induction s with
  | nil => rfl
  | cons c cs ih =>
    simp only [List.mem_cons, not_or] at h
    have hc : ¬ c = '\n' := fun hh => h.1 hh.symm
    simp [splitLinesL, if_neg hc, ih h.2]

/-- JavaScript whitespace as trimmed by `String.prototype.trim`
(`line.trim()`, `llm.ts:189`; the inputs of interest only use the
ASCII members). -/
def isJsWhitespace (c : Char) : Bool :=
  c = ' ' || c = '\t' || c = '\n' || c = '\r' ||
  c = Char.ofNat 11 || c = Char.ofNat 12 || c = Char.ofNat 0xA0 ||
  c = Char.ofNat 0xFEFF || c = Char.ofNat 0x2028 || c = Char.ofNat 0x2029

/-- JavaScript `String.prototype.trim`. -/
def trimL (s : List Char) : List Char :=
  ((s.dropWhile isJsWhitespace).reverse.dropWhile isJsWhitespace).reverse

/-- Result of decoding one logical line in the read loop. -/
inductive LineClass where
  | skip : LineClass
  | term : LineClass
  | chunk : List Char → LineClass
deriving DecidableEq, Repr

/-- Decoding of one line of the wire format (`llm.ts:189-221`):
trim; ignore blank and comment lines; `[DONE]` (with or without the
`data: ` prefix) terminates the stream; a `data: `-prefixed line is
parsed (`pd` models `JSON.parse` + `choices[0].delta.content`
extraction) and yields a chunk exactly when the content field is a
string; parse failures and other line shapes are ignored. -/
def classifyLine (pd : List Char → Option (List Char)) (raw : List Char) :
    LineClass :=
  let line := trimL raw
  if line = [] ∨ line = [':'] then .skip
  else if line = "[DONE]".toList ∨ line = "data: [DONE]".toList then .term
  else if "data: ".toList.isPrefixOf line then
    match pd (line.drop 6) with
    | some c => .chunk c
    | none => .skip
  else .skip

/-- Processing of the complete lines of one read (`llm.ts:188-222`):
chunks are collected in order; a terminal marker stops the loop (the
generator returns; following lines are never looked at). -/
def processLines (pd : List Char → Option (List Char)) :
    List (List Char) → List (List Char) × Bool
  | [] => ([], false)
  | l :: ls =>
    match classifyLine pd l with
    | .skip => processLines pd ls
    | .term => ([], true)
    | .chunk c =>
      let r := processLines pd ls
      (c :: r.1, r.2)

theorem processLines_append (pd : List Char → Option (List Char))
    (a b : List (List Char)) :
    processLines pd (a ++ b) =
      (if (processLines pd a).2 then processLines pd a
       else ((processLines pd a).1 ++ (processLines pd b).1,
             (processLines pd b).2)) := by
  induction a with
  | nil => simp [processLines]
  | cons l ls ih =>
    simp only [List.cons_append, processLines, List.append_eq]
    cases classifyLine pd l with
    | skip => exact ih
    | term => simp [processLines]
    | chunk c =>
      rw [ih]
      by_cases h : (processLines pd ls).2 <;> simp [h]

/-- The mutable state of one pass of the read loop of
`streamOpenAIChat` (`llm.ts:130-136`): decoder state, line carry
buffer, raw-body fallback accumulator, chunks yielded so far
(`yieldCount` is their number), and whether a terminal `[DONE]`
marker made the generator return. -/
structure RunAcc where
  dec : Utf8State
  buffer : List Char
  fb : List Char
  chunks : List (List Char)
  term : Bool
deriving DecidableEq, Repr

/-- Initial loop state (`llm.ts:130-136`). -/
def initAcc : RunAcc := ⟨utf8Init, [], [], [], false⟩

/-- One successful `reader.read()` delivering `bytes`
(`llm.ts:179-222`): decode incrementally, extend the fallback buffer
while no chunk has been yielded yet, split off complete lines, keep
the trailing fragment, and decode the complete lines in order.  After
a terminal marker the generator has returned, so further reads do not
happen (modelled as the identity). -/
def stepRead (pd : List Char → Option (List Char)) (a : RunAcc)
    (bytes : List Nat) : RunAcc :=
  if a.term then a
  else
    let d := utf8DecodeChunk a.dec bytes
    let fb' := if a.chunks.length = 0 then a.fb ++ d.2 else a.fb
    let buf := a.buffer ++ d.2
    let parts := splitLinesL buf
    let r := processLines pd (frontLines parts)
    ⟨d.1, lastLine parts, fb', a.chunks ++ r.1, r.2⟩

/-- Observational equivalence of loop states: same termination flag,
same chunks so far, and (when still live) identical decoder/carry
state.  The fallback accumulator is not constrained: it never
influences which chunks the loop yields. -/
def accEquiv (a b : RunAcc) : Prop :=
  a.chunks = b.chunks ∧ a.term = b.term ∧
    (a.term = false → a.dec = b.dec ∧ a.buffer = b.buffer)

theorem accEquiv_refl (a : RunAcc) : accEquiv a a := ⟨rfl, rfl, fun _ => ⟨rfl, rfl⟩⟩

theorem accEquiv_trans {a b c : RunAcc} (h1 : accEquiv a b) (h2 : accEquiv b c) :
    accEquiv a c := by
  obtain ⟨hc1, ht1, hs1⟩ := h1
  obtain ⟨hc2, ht2, hs2⟩ := h2
  refine ⟨hc1.trans hc2, ht1.trans ht2, fun h => ?_⟩
  obtain ⟨hd1, hb1⟩ := hs1 h
  obtain ⟨hd2, hb2⟩ := hs2 (ht1 ▸ h)
  exact ⟨hd1.trans hd2, hb1.trans hb2⟩

theorem frontLines_glueSplit (l1 l2 : List (List Char)) (h2 : l2 ≠ []) :
    frontLines (glueSplit l1 l2) = frontLines l1 ++ frontLines (glueSplit [lastLine l1] l2) := by
  induction l1 with
  | nil =>
    cases l2 with
    | nil => exact absurd rfl h2
    | cons z zs => simp [glueSplit, frontLines, lastLine]
  | cons x xs ih =>
    cases xs with
    | nil =>
      simp [glueSplit, frontLines, lastLine]
    | cons y ys =>
      rw [glueSplit_cons x (y :: ys) l2 (by simp)]
      rw [frontLines_cons x (glueSplit (y :: ys) l2) (glueSplit_ne_nil _ _)]
      rw [frontLines_cons x (y :: ys) (by simp)]
      rw [lastLine_cons x (y :: ys) (by simp)]
      rw [ih]
      simp [List.append_assoc]

theorem lastLine_glueSplit (l1 l2 : List (List Char)) (h2 : l2 ≠ []) :
    lastLine (glueSplit l1 l2) = lastLine (glueSplit [lastLine l1] l2) := by
  induction l1 with
  | nil =>
    cases l2 with
    | nil => exact absurd rfl h2
    | cons z zs => simp [glueSplit, frontLines, lastLine]
  | cons x xs ih =>
    cases xs with
    | nil => rfl
    | cons y ys =>
      rw [glueSplit_cons x (y :: ys) l2 (by simp)]
      rw [lastLine_cons x (glueSplit (y :: ys) l2) (glueSplit_ne_nil _ _)]
      rw [ih]
      rw [lastLine_cons x (y :: ys) (by simp)]

theorem stepRead_live (pd : List Char → Option (List Char)) (a : RunAcc)
    (bytes : List Nat) (h : a.term = false) :
    stepRead pd a bytes = ⟨(utf8DecodeChunk a.dec bytes).1,
      lastLine (splitLinesL (a.buffer ++ (utf8DecodeChunk a.dec bytes).2)),
      (if a.chunks.length = 0 then a.fb ++ (utf8DecodeChunk a.dec bytes).2 else a.fb),
      a.chunks ++ (processLines pd (frontLines (splitLinesL
        (a.buffer ++ (utf8DecodeChunk a.dec bytes).2)))).1,
      (processLines pd (frontLines (splitLinesL
        (a.buffer ++ (utf8DecodeChunk a.dec bytes).2)))).2⟩ := by
  simp [stepRead, h]

theorem stepRead_term (pd : List Char → Option (List Char)) (a : RunAcc)
    (bytes : List Nat) (h : a.term = true) : stepRead pd a bytes = a := by
  simp [stepRead, h]

theorem stepRead_append (pd : List Char → Option (List Char)) (a : RunAcc)
    (x y : List Nat) :
    accEquiv (stepRead pd (stepRead pd a x) y) (stepRead pd a (x ++ y)) := by
  by_cases ha : a.term = true
  · rw [stepRead_term pd a x ha, stepRead_term pd a y ha,
      stepRead_term pd a (x ++ y) ha]
    exact accEquiv_refl a
  · have ha' : a.term = false := by simpa using ha
    have hdec := utf8DecodeChunk_append a.dec x y
    have htx : (utf8DecodeChunk a.dec (x ++ y)).2 =
        (utf8DecodeChunk a.dec x).2 ++ (utf8DecodeChunk (utf8DecodeChunk a.dec x).1 y).2 := by
      rw [hdec]
    have htx1 : (utf8DecodeChunk a.dec (x ++ y)).1 =
        (utf8DecodeChunk (utf8DecodeChunk a.dec x).1 y).1 := by
      rw [hdec]
    -- names for the pieces of the first step
    have hP : splitLinesL (a.buffer ++ (utf8DecodeChunk a.dec (x ++ y)).2) =
        glueSplit (splitLinesL (a.buffer ++ (utf8DecodeChunk a.dec x).2))
          (splitLinesL (utf8DecodeChunk (utf8DecodeChunk a.dec x).1 y).2) := by
      rw [htx, ← List.append_assoc, splitLinesL_append]
    rw [stepRead_live pd a x ha', stepRead_live pd a (x ++ y) ha']
    generalize hPdef : splitLinesL (a.buffer ++ (utf8DecodeChunk a.dec x).2) = P at hP
    generalize hAdef : splitLinesL (utf8DecodeChunk (utf8DecodeChunk a.dec x).1 y).2 = A at hP
    have hAne : A ≠ [] := hAdef ▸ splitLinesL_ne_nil _
    have hPlast : '\n' ∉ lastLine P := hPdef ▸ splitLinesL_lastLine_no_newline _
    have hfront : frontLines (glueSplit P A) =
        frontLines P ++ frontLines (glueSplit [lastLine P] A) :=
      frontLines_glueSplit P A hAne
    have hlast : lastLine (glueSplit P A) = lastLine (glueSplit [lastLine P] A) :=
      lastLine_glueSplit P A hAne
    by_cases hr1 : (processLines pd (frontLines P)).2 = true
    · -- the first read hit a terminal marker: the generator has returned
      rw [stepRead_term pd _ y (by simpa using hr1)]
      refine ⟨?_, ?_, ?_⟩
      · simp only [hP, hfront, processLines_append, hr1, if_pos]
      · simp only [hP, hfront, processLines_append, hr1, if_pos]
      · intro hcontra
        rw [hr1] at hcontra
        exact absurd hcontra (by simp)
    · -- still live after the first read
      have hr1' : (processLines pd (frontLines P)).2 = false := by
        simpa using hr1
      rw [stepRead_live pd _ y (by simpa using hr1)]
      have hbuf2 : lastLine P ++ (utf8DecodeChunk (utf8DecodeChunk a.dec x).1 y).2
          = lastLine P ++ (utf8DecodeChunk (utf8DecodeChunk a.dec x).1 y).2 := rfl
      have hsplit2 : splitLinesL (lastLine P ++
          (utf8DecodeChunk (utf8DecodeChunk a.dec x).1 y).2) = glueSplit [lastLine P] A := by
        rw [splitLinesL_append, splitLinesL_no_newline (lastLine P) hPlast, hAdef]
    -- componentwise comparison
      refine ⟨?_, ?_, fun _ => ⟨?_, ?_⟩⟩
      · simp only [hsplit2, hP, hfront, processLines_append, hr1', if_neg, Bool.false_eq_true,
          not_false_iff, List.append_assoc]
      · simp only [hsplit2, hP, hfront, processLines_append, hr1', if_neg, Bool.false_eq_true,
          not_false_iff]
      · simp only [htx1]
      · simp only [hsplit2, hP, hlast]

theorem accEquiv_stepRead (pd : List Char → Option (List Char)) {a b : RunAcc}
    (h : accEquiv a b) (x : List Nat) :
    accEquiv (stepRead pd a x) (stepRead pd b x) := by
  obtain ⟨hc, ht, hs⟩ := h
  by_cases ha : a.term = true
  · rw [stepRead_term pd a x ha, stepRead_term pd b x (ht ▸ ha)]
    exact ⟨hc, ht, hs⟩
  · have ha' : a.term = false := by simpa using ha
    obtain ⟨hd, hb⟩ := hs ha'
    rw [stepRead_live pd a x ha', stepRead_live pd b x (ht ▸ ha'), hd, hb, hc]
    exact accEquiv_refl _

theorem accEquiv_foldl (pd : List Char → Option (List Char)) {a b : RunAcc}
    (h : accEquiv a b) (ps : List (List Nat)) :
    accEquiv (List.foldl (stepRead pd) a ps) (List.foldl (stepRead pd) b ps) := by
  induction ps generalizing a b with
  | nil => exact h
  | cons p ps ih => exact ih (accEquiv_stepRead pd h p)

theorem foldl_stepRead_equiv (pd : List Char → Option (List Char))
    (a : RunAcc) (ps : List (List Nat)) (hbuf : '\n' ∉ a.buffer) :
    accEquiv (List.foldl (stepRead pd) a ps) (stepRead pd a ps.flatten) := by
  induction ps generalizing a with
  | nil =>
    simp only [List.foldl_nil, List.flatten_nil]
    by_cases ha : a.term = true
    · rw [stepRead_term pd a [] ha]; exact accEquiv_refl a
    · have ha' : a.term = false := by simpa using ha
      rw [stepRead_live pd a [] ha']
      simp only [utf8DecodeChunk, List.append_nil]
      rw [splitLinesL_no_newline a.buffer hbuf]
      refine ⟨?_, ?_, fun _ => ⟨rfl, rfl⟩⟩ <;>
        simp [frontLines, lastLine, processLines, ha']
  | cons p ps ih =>
    have h1 : accEquiv (List.foldl (stepRead pd) (stepRead pd a p) ps)
        (stepRead pd (stepRead pd a p) ps.flatten) := by
      apply ih
      by_cases ha : a.term = true
      · rw [stepRead_term pd a p ha]; exact hbuf
      · rw [stepRead_live pd a p (by simpa using ha)]
        exact splitLinesL_lastLine_no_newline _
    have h2 := stepRead_append pd a p ps.flatten
    simpa using accEquiv_trans h1 h2

/-- `StreamResult` (`llm.ts:3-6`). -/
inductive StreamResult where
  | chunk : List Char → StreamResult
  | done : StreamResult
  | error : List Char → Bool → StreamResult
deriving DecidableEq, Repr

/-- How the successful body read phase ends: a natural `done` read
(`llm.ts:146`) or an exception thrown into the read loop
(`llm.ts:224-236`), which is an abort or some other failure. -/
inductive BodyEnd where
  | natural : BodyEnd
  | exn : Bool → List Char → BodyEnd
deriving DecidableEq, Repr

/-- The environment-determined outcome of one `streamOpenAIChat`
call: `fetch` throws (`llm.ts:74-88`), a non-success status
(`llm.ts:92-110`), a missing body (`llm.ts:112-117`), or a readable
body delivering the given byte blocks before ending as described. -/
inductive FetchOutcome where
  | netErr : Bool → List Char → FetchOutcome
  | badStatus : Nat → List Char → FetchOutcome
  | noBody : FetchOutcome
  | body : List (List Nat) → BodyEnd → FetchOutcome
deriving DecidableEq, Repr

/-- The events of the `done` branch (`llm.ts:146-176`): when no chunk
was ever yielded and the accumulated raw body looks like a JSON
object, recover the non-streaming completion content (`pm`); otherwise
try to decode a final unterminated `data: ` line left in the carry
buffer; then the terminal `Done`. -/
def doneEvents (pd pm : List Char → Option (List Char)) (a : RunAcc) :
    List StreamResult :=
  (if a.chunks.length = 0 ∧ "\x7b".toList.isPrefixOf (trimL a.fb) then
    match pm a.fb with
    | some c => [StreamResult.chunk c]
    | none => []
  else
    if trimL a.buffer ≠ [] ∧ trimL a.buffer ≠ "[DONE]".toList ∧
        trimL a.buffer ≠ "data: [DONE]".toList ∧
        "data: ".toList.isPrefixOf (trimL a.buffer) then
      match pd ((trimL a.buffer).drop 6) with
      | some c => [StreamResult.chunk c]
      | none => []
    else []) ++ [StreamResult.done]

/-- The full event sequence of one `streamOpenAIChat` call
(`llm.ts:22-242`), as a function of the environment outcome.  Chunks
decoded by the read loop come first, in order; then exactly one of:
`Done` (after the `[DONE]` marker, `llm.ts:193-197`, or the natural
end handling), or `Error` (connection failure, bad status, missing
body, or a mid-stream exception). -/
def streamOpenAIChat (pd pm : List Char → Option (List Char)) :
    FetchOutcome → List StreamResult
  | .netErr true _ => [.error "Request aborted.".toList true]
  | .netErr false msg => [.error ("Network error: ".toList ++ msg) false]
  | .badStatus st detail =>
      [.error ("API error (".toList ++ (toString st).toList ++ "): ".toList ++ detail) false]
  | .noBody => [.error "Response body is empty".toList false]
  | .body reads ending =>
    let a := List.foldl (stepRead pd) initAcc reads
    (a.chunks.map .chunk) ++
      (if a.term then [.done]
       else match ending with
         | .natural => doneEvents pd pm a
         | .exn true _ => [.error "Request aborted.".toList true]
         | .exn false msg => [.error ("Streaming error: ".toList ++ msg) false])

/-- C1.  Chunk-split invariance of the stream decoder: for every byte
sequence and every partition of it into pieces at arbitrary byte
offsets (including mid-line and mid-multibyte-character splits),
feeding the pieces one read at a time through the decode loop of
`streamOpenAIChat` (stateful incremental UTF-8 decoding plus the line
carry buffer) yields the identical ordered sequence of `Chunk`
contents as feeding the whole sequence in one read.  This holds for
every payload parser `pd`, hence in particular for well-formed event
streams. -/
theorem chunk_split_invariance (pd : List Char → Option (List Char))
    (pieces : List (List Nat)) :
    (List.foldl (stepRead pd) initAcc pieces).chunks =
      (stepRead pd initAcc pieces.flatten).chunks :=
  (foldl_stepRead_equiv pd initAcc pieces (by simp [initAcc])).1

theorem doneEvents_shape (pd pm : List Char → Option (List Char)) (a : RunAcc) :
    ∃ X, doneEvents pd pm a = X ++ [StreamResult.done] ∧
      (X = [] ∨ ∃ c, X = [StreamResult.chunk c]) := by
  unfold doneEvents
  split
  · rcases hpm : pm a.fb with _ | c
    · exact ⟨[], by simp [hpm], Or.inl rfl⟩
    · exact ⟨[StreamResult.chunk c], by simp [hpm], Or.inr ⟨c, rfl⟩⟩
  · split
    · rcases hpd : pd ((trimL a.buffer).drop 6) with _ | c
      · exact ⟨[], by simp [hpd], Or.inl rfl⟩
      · exact ⟨[StreamResult.chunk c], by simp [hpd], Or.inr ⟨c, rfl⟩⟩
    · exact ⟨[], by simp, Or.inl rfl⟩

/-- C4.  Terminal-event shape: every event sequence produced by
`streamOpenAIChat` consists of zero or more `Chunk` events (in the
order received) followed by exactly one terminal event — `Done` or
`Error` — with nothing after it, on every exit path (connection
failure, non-success status, empty body, `[DONE]` marker, natural
stream end, or mid-stream exception). -/
theorem terminal_event_shape (pd pm : List Char → Option (List Char))
    (o : FetchOutcome) :
    ∃ (cs : List (List Char)) (t : StreamResult),
      streamOpenAIChat pd pm o = cs.map StreamResult.chunk ++ [t] ∧
      (t = StreamResult.done ∨ ∃ m ab, t = StreamResult.error m ab) := by
  cases o with
  | netErr ab msg =>
    cases ab
    · refine ⟨[], .error ("Network error: ".toList ++ msg) false, ?_,
        Or.inr ⟨_, _, rfl⟩⟩
      simp [streamOpenAIChat]
    · refine ⟨[], .error "Request aborted.".toList true, ?_, Or.inr ⟨_, _, rfl⟩⟩
      simp [streamOpenAIChat]
  | badStatus st detail =>
    refine ⟨[], .error ("API error (".toList ++ (toString st).toList ++
      "): ".toList ++ detail) false, ?_, Or.inr ⟨_, _, rfl⟩⟩
    simp [streamOpenAIChat]
  | noBody =>
    refine ⟨[], .error "Response body is empty".toList false, ?_, Or.inr ⟨_, _, rfl⟩⟩
    simp [streamOpenAIChat]
  | body reads ending =>
    by_cases hterm : (List.foldl (stepRead pd) initAcc reads).term = true
    · refine ⟨(List.foldl (stepRead pd) initAcc reads).chunks, .done, ?_, Or.inl rfl⟩
      simp [streamOpenAIChat, hterm]
    · have hterm' : (List.foldl (stepRead pd) initAcc reads).term = false := by
        simpa using hterm
      cases ending with
      | natural =>
        obtain ⟨X, hX, hXcase⟩ :=
          doneEvents_shape pd pm (List.foldl (stepRead pd) initAcc reads)
        rcases hXcase with hnil | ⟨c, hc⟩
        · refine ⟨(List.foldl (stepRead pd) initAcc reads).chunks, .done, ?_, Or.inl rfl⟩
          simp [streamOpenAIChat, hterm', hX, hnil]
        · refine ⟨(List.foldl (stepRead pd) initAcc reads).chunks ++ [c], .done, ?_,
            Or.inl rfl⟩
          simp [streamOpenAIChat, hterm', hX, hc]
      | exn ab msg =>
        cases ab
        · refine ⟨(List.foldl (stepRead pd) initAcc reads).chunks,
            .error ("Streaming error: ".toList ++ msg) false, ?_, Or.inr ⟨_, _, rfl⟩⟩
          simp [streamOpenAIChat, hterm']
        · refine ⟨(List.foldl (stepRead pd) initAcc reads).chunks,
            .error "Request aborted.".toList true, ?_, Or.inr ⟨_, _, rfl⟩⟩
          simp [streamOpenAIChat, hterm']

/-- C3.  Fallback parse: if the body read reaches natural end with
zero `Chunk` events emitted, and the accumulated raw body is a single
well-formed JSON object of the non-streaming completion shape (its
trimmed form starts with an opening brace and `pm` — modelling
`JSON.parse` plus `choices[0].message.content` — extracts the content
string `c`), then `streamOpenAIChat` emits exactly one `Chunk`
carrying `c`, followed by the terminal `Done`. -/
theorem fallback_parse (pd pm : List Char → Option (List Char))
    (reads : List (List Nat)) (c : List Char)
    (h0 : (List.foldl (stepRead pd) initAcc reads).chunks = [])
    (h1 : (List.foldl (stepRead pd) initAcc reads).term = false)
    (h2 : "\x7b".toList.isPrefixOf
      (trimL (List.foldl (stepRead pd) initAcc reads).fb) = true)
    (h3 : pm (List.foldl (stepRead pd) initAcc reads).fb = some c) :
    streamOpenAIChat pd pm (.body reads .natural) =
      [StreamResult.chunk c, StreamResult.done] := by
  have hmain : doneEvents pd pm (List.foldl (stepRead pd) initAcc reads) =
      [StreamResult.chunk c, StreamResult.done] := by
    unfold doneEvents
    rw [if_pos ⟨by rw [h0]; rfl, h2⟩, h3]
    rfl
  simp [streamOpenAIChat, h0, h1, hmain]

theorem dataMarker_toList : "data: ".toList = ['d','a','t','a',':',' '] := rfl

theorem doneMarker_toList : "[DONE]".toList = ['[','D','O','N','E',']'] := rfl

theorem dataDoneMarker_toList :
    "data: [DONE]".toList = "data: ".toList ++ "[DONE]".toList := rfl

theorem classifyLine_data (pd : List Char → Option (List Char)) (g : List Char)
    (ht : trimL ("data: ".toList ++ g) = "data: ".toList ++ g)
    (hd : g ≠ "[DONE]".toList) :
    classifyLine pd ("data: ".toList ++ g) =
      (match pd g with | some c => LineClass.chunk c | none => LineClass.skip) := by
  unfold classifyLine
  rw [ht]
  have hne1 : ¬("data: ".toList ++ g = [] ∨ "data: ".toList ++ g = [':']) := by
    rw [dataMarker_toList]
    simp
  rw [if_neg hne1]
  have hne2 : ¬("data: ".toList ++ g = "[DONE]".toList ∨
      "data: ".toList ++ g = "data: [DONE]".toList) := by
    refine not_or.mpr ⟨?_, ?_⟩
    · intro h
      have h' := congrArg List.head? h
      rw [dataMarker_toList, doneMarker_toList] at h'
      simp at h'
    · intro h
      rw [dataDoneMarker_toList] at h
      exact hd (List.append_cancel_left h)
  rw [if_neg hne2]
  have hpre : "data: ".toList.isPrefixOf ("data: ".toList ++ g) = true :=
    List.isPrefixOf_iff_prefix.mpr (List.prefix_append _ _)
  rw [if_pos hpre]
  have hdrop : ("data: ".toList ++ g).drop 6 = g := by
    rw [show (6 : Nat) = ("data: ".toList).length from rfl]
    exact List.drop_left _ _
  rw [hdrop]

/-- C5.  Malformed-frame tolerance: a `data: `-prefixed frame whose
payload fails to parse (`pd` returns `none`, modelling a `JSON.parse`
failure), occurring between two well-formed content frames, does not
abort the stream and produces no event — the contents of both
surrounding frames are still decoded, in order, and the loop is not
terminated.  The hypotheses say only that the three frames are
trim-stable, are not the `[DONE]` marker, and parse as stated. -/
theorem malformed_frame_tolerance (pd : List Char → Option (List Char))
    (g1 gb g2 c1 c2 : List Char)
    (hp1 : pd g1 = some c1) (hpb : pd gb = none) (hp2 : pd g2 = some c2)
    (ht1 : trimL ("data: ".toList ++ g1) = "data: ".toList ++ g1)
    (htb : trimL ("data: ".toList ++ gb) = "data: ".toList ++ gb)
    (ht2 : trimL ("data: ".toList ++ g2) = "data: ".toList ++ g2)
    (hd1 : g1 ≠ "[DONE]".toList) (hdb : gb ≠ "[DONE]".toList)
    (hd2 : g2 ≠ "[DONE]".toList) :
    processLines pd ["data: ".toList ++ g1, "data: ".toList ++ gb,
      "data: ".toList ++ g2] = ([c1, c2], false) := by
  unfold processLines
  rw [classifyLine_data pd g1 ht1 hd1, hp1]
  unfold processLines
  rw [classifyLine_data pd gb htb hdb, hpb]
  unfold processLines
  rw [classifyLine_data pd g2 ht2 hd2, hp2]
  rfl

/-- A concrete non-streaming completion body (for the fallback-parse
witness). -/
def fallbackBodyW : List Char :=
  "\x7b\"choices\":[\x7b\"message\":\x7b\"content\":\"hi\"\x7d\x7d]\x7d".toList

/-- A concrete message-content extractor agreeing with `JSON.parse`
on `fallbackBodyW`. -/
def pmW : List Char → Option (List Char) :=
  fun s => if s = fallbackBodyW then some "hi".toList else none

theorem fallback_parse_witness :
    streamOpenAIChat (fun _ => none) pmW
      (.body [fallbackBodyW.map Char.toNat] .natural) =
      [StreamResult.chunk "hi".toList, StreamResult.done] :=
  fallback_parse (fun _ => none) pmW [fallbackBodyW.map Char.toNat] "hi".toList
    (by decide) (by decide) (by decide) (by decide)

/-- Concrete well-formed delta frames and a malformed frame (for the
malformed-frame witness). -/
def deltaHelloW : List Char :=
  "\x7b\"choices\":[\x7b\"delta\":\x7b\"content\":\"Hello\"\x7d\x7d]\x7d".toList

def deltaWorldW : List Char :=
  "\x7b\"choices\":[\x7b\"delta\":\x7b\"content\":\"World\"\x7d\x7d]\x7d".toList

def badFrameW : List Char := "oops not json".toList

/-- A concrete delta-content extractor agreeing with `JSON.parse` on
the three frames above (the malformed one fails to parse). -/
def pdW : List Char → Option (List Char) :=
  fun s => if s = deltaHelloW then some "Hello".toList
    else if s = deltaWorldW then some "World".toList else none

theorem malformed_frame_tolerance_witness :
    processLines pdW ["data: ".toList ++ deltaHelloW, "data: ".toList ++ badFrameW,
      "data: ".toList ++ deltaWorldW] = (["Hello".toList, "World".toList], false) :=
  malformed_frame_tolerance pdW deltaHelloW badFrameW deltaWorldW
    "Hello".toList "World".toList (by decide) (by decide) (by decide)
    (by decide) (by decide) (by decide) (by decide) (by decide) (by decide)

/-!
Part 2 models the rendering pipeline of `src/markdown.ts`: the HTML
escaper, the path alias normalizer, the link-target classifier
`transformLinkHref` (whose JavaScript regular expressions are
translated as explicit scanners with the engine's leftmost/greedy
backtracking semantics), the two linkify passes, the allow-list gate
`isAllowedFileLink`, and the custom renderer link hook of
`buildRenderer`.  The third-party markdown engine (`marked`) and the
sanitizer (`DOMPurify`) are not repository code; they are modelled
from the spec where needed (see `markedRenderModel`,
`sanitizeModel`).  Strings are modelled as `List Char`. -/

/-- The backtick character (spelled via its code point). -/
def backtickChar : Char := Char.ofNat 96

/-- JavaScript `String.prototype.includes` as a substring test. -/
def containsSubL (pat : List Char) : List Char → Bool
  | [] => pat.isEmpty
  | c :: cs => pat.isPrefixOf (c :: cs) || containsSubL pat cs

/-- Global single-character replacement (JavaScript
`s.replace(/c/g, rep)`). -/
def replaceAllChar (c : Char) (rep : List Char) : List Char → List Char
  | [] => []
  | x :: xs => (if x = c then rep else [x]) ++ replaceAllChar c rep xs

/-- `escapeHtml` (`markdown.ts:28-34`): replace `&`, `<`, `>`, `"`
in that order. -/
def escapeHtml (s : List Char) : List Char :=
  replaceAllChar '"' "&quot;".toList
    (replaceAllChar '>' "&gt;".toList
      (replaceAllChar '<' "&lt;".toList
        (replaceAllChar '&' "&amp;".toList s)))

/-- `normalizePath` (`markdown.ts:36-38`): collapse the legacy
`rc/` and `srs/` prefixes to `src/` (two sequential anchored
replacements). -/
def normalizePath (p : List Char) : List Char :=
  let p1 := if "rc/".toList.isPrefixOf p then "src/".toList ++ p.drop 3 else p
  if "srs/".toList.isPrefixOf p1 then "src/".toList ++ p1.drop 4 else p1

/-- Decimal rendering of a number (JavaScript `String(n)` /
`JSON.stringify` on the naturals produced by `parseInt`). -/
def natStr (n : Nat) : List Char := (toString n).toList

/-- `parseInt(s, 10)` on a non-empty all-digit string. -/
def digitsToNat (s : List Char) : Nat :=
  s.foldl (fun a c => a * 10 + (c.toNat - 48)) 0

/-- Uppercase hexadecimal digit. -/
def hexDigitU (n : Nat) : Char :=
  if n < 10 then Char.ofNat (48 + n) else Char.ofNat (55 + n)

/-- UTF-8 bytes of one code point (for `encodeURIComponent`). -/
def utf8BytesOfChar (c : Char) : List Nat :=
  let n := c.toNat
  if n < 0x80 then [n]
  else if n < 0x800 then [0xC0 + n / 64, 0x80 + n % 64]
  else if n < 0x10000 then [0xE0 + n / 4096, 0x80 + (n / 64) % 64, 0x80 + n % 64]
  else [0xF0 + n / 262144, 0x80 + (n / 4096) % 64, 0x80 + (n / 64) % 64, 0x80 + n % 64]

/-- Characters `encodeURIComponent` leaves unescaped. -/
def isUriUnreserved (c : Char) : Bool :=
  c.isAlpha || c.isDigit || c = '-' || c = '_' || c = '.' || c = '!' ||
  c = '~' || c = '*' || c = Char.ofNat 39 || c = '(' || c = ')'

def percentBytes : List Nat → List Char
  | [] => []
  | b :: bs => '%' :: hexDigitU (b / 16) :: hexDigitU (b % 16) :: percentBytes bs

/-- The platform `encodeURIComponent`. -/
def encodeURIComponentL : List Char → List Char
  | [] => []
  | c :: cs =>
    (if isUriUnreserved c then [c] else percentBytes (utf8BytesOfChar c)) ++
      encodeURIComponentL cs

/-- `JSON.stringify` of a string (escaping sufficient for the path
strings arising here: backslash and double quote; control characters
do not occur in them). -/
def jsonQuote (s : List Char) : List Char :=
  ['"'] ++ replaceAllChar '"' "\\\"".toList
    (replaceAllChar '\\' "\\\\".toList s) ++ ['"']

/-- `JSON.stringify([path, line, col])`. -/
def jsonArgs3 (path : List Char) (line col : Nat) : List Char :=
  "[".toList ++ jsonQuote path ++ ",".toList ++ natStr line ++ ",".toList ++
    natStr col ++ "]".toList

/-- `JSON.stringify([path, line, col, endLine])`; an `undefined`
`endLine` serializes as `null`. -/
def jsonArgs4 (path : List Char) (line col : Nat) (endLine : Option Nat) :
    List Char :=
  "[".toList ++ jsonQuote path ++ ",".toList ++ natStr line ++ ",".toList ++
    natStr col ++ ",".toList ++
    (match endLine with | some e => natStr e | none => "null".toList) ++ "]".toList

/-- The `command:symfocus.openFile?...` href built throughout
`transformLinkHref`. -/
def commandHref (args : List Char) : List Char :=
  "command:symfocus.openFile?".toList ++ encodeURIComponentL args

/-- Character class of the path part of the `embedded`/naked
reference patterns: `[a-zA-Z0-9_./\\@+~-]` (`markdown.ts:93/117/168`). -/
def isPathCharL (c : Char) : Bool :=
  c.isAlpha || c.isDigit || c = '_' || c = '.' || c = '/' || c = '\\' ||
  c = '@' || c = '+' || c = '~' || c = '-'

def isAlnumL (c : Char) : Bool := c.isAlpha || c.isDigit

/-- `\w`: letters, digits, underscore. -/
def isWordChar (c : Char) : Bool := c.isAlpha || c.isDigit || c = '_'

/-- Split off the suffix after the last colon: `some (p, suf)` with
`s = p ++ ":" ++ suf` and `suf` colon-free.  Used for the anchored
patterns of `transformLinkHref`, whose greedy `(.+)` makes the last
colon the only possible split (the suffix patterns admit no colon
except a final `:col`, which the greedy path group absorbs). -/
def splitAtLastColon (s : List Char) : Option (List Char × List Char) :=
  let r := s.reverse
  let sufr := r.takeWhile (fun c => c ≠ ':')
  if sufr.length = r.length then none
  else some ((r.drop (sufr.length + 1)).reverse, sufr.reverse)

/-- `/^(.+):(\d+)-(\d+)$/` (`markdown.ts:66`): greedy `(.+)` takes
everything up to the last colon; the suffix must be exactly
`digits-digits`. -/
def matchRange (href : List Char) : Option (List Char × Nat × Nat) :=
  match splitAtLastColon href with
  | none => none
  | some (p, suf) =>
    if p.isEmpty then none
    else
      let d1 := suf.takeWhile Char.isDigit
      if d1.isEmpty then none
      else match suf.drop d1.length with
        | '-' :: d2 =>
          if !d2.isEmpty && d2.all Char.isDigit then
            some (p, digitsToNat d1, digitsToNat d2)
          else none
        | _ => none

/-- `/^(.+):(\d+)(?::(\d+))?$/` (`markdown.ts:80`): with the greedy
`(.+)` the path extends to the last colon, so the suffix is a pure
digit run and the optional `:col` group never captures (for
`a.ts:10:5` the engine yields path `a.ts:10`, line `5`). -/
def matchLineCol (href : List Char) : Option (List Char × Nat) :=
  match splitAtLastColon href with
  | none => none
  | some (p, suf) =>
    if p.isEmpty then none
    else if !suf.isEmpty && suf.all Char.isDigit then some (p, digitsToNat suf)
    else none

/-- A match of the unanchored embedded/naked reference pattern
`([a-zA-Z0-9_./\\@+~-]+\.[a-zA-Z0-9]+):(\d+)(?:-(\d+))?(?::(\d+))?`
starting at the current position. -/
structure PathLineMatch where
  path : List Char
  line : Nat
  endLine : Option Nat
  col : Option Nat
  matched : List Char
  rest : List Char
deriving DecidableEq, Repr

/-- Try the embedded/naked reference pattern at the head of `s`.
The path group must span the maximal path-character run (a colon is
not a path character, and anything shorter would be followed by a
path character where the pattern demands `:`), decomposed at the last
dot with a non-empty alphanumeric extension after it; then a colon,
digits, and the two greedy optional groups. -/
def matchPathLineAt (s : List Char) : Option PathLineMatch :=
  let run := s.takeWhile isPathCharL
  if run.isEmpty then none
  else
    let wr := run.reverse.takeWhile isAlnumL
    if wr.isEmpty then none
    else
      match run.reverse.drop wr.length with
      | '.' :: pr =>
        if pr.isEmpty then none
        else
          match s.drop run.length with
          | ':' :: t1 =>
            let d1 := t1.takeWhile Char.isDigit
            if d1.isEmpty then none
            else
              let t2 := t1.drop d1.length
              let er := match t2 with
                | '-' :: u =>
                  let d2 := u.takeWhile Char.isDigit
                  if d2.isEmpty then ((none : Option Nat), t2)
                  else (some (digitsToNat d2), u.drop d2.length)
                | _ => (none, t2)
              let cr := match er.2 with
                | ':' :: v =>
                  let d3 := v.takeWhile Char.isDigit
                  if d3.isEmpty then ((none : Option Nat), er.2)
                  else (some (digitsToNat d3), v.drop d3.length)
                | _ => (none, er.2)
              some ⟨run, digitsToNat d1, er.1, cr.1,
                run ++ ':' :: t1.take (t1.length - cr.2.length), cr.2⟩
          | _ => none
      | _ => none

/-- Leftmost match of the embedded pattern (`markdown.ts:92-94`):
the engine tries every start position from the left. -/
def findEmbedded : Nat → List Char → Option PathLineMatch
  | 0, _ => none
  | _, [] => none
  | fuel + 1, c :: cs =>
    match matchPathLineAt (c :: cs) with
    | some m => some m
    | none => findEmbedded fuel cs

/-- `/^([a-zA-Z0-9_./\\@+~-]+\.[a-zA-Z0-9]+)$/` (`markdown.ts:117`). -/
def bareFileOk (s : List Char) : Bool :=
  !s.isEmpty && s.all isPathCharL &&
    (let wr := s.reverse.takeWhile isAlnumL
     !wr.isEmpty &&
       (match s.reverse.drop wr.length with
        | '.' :: pr => !pr.isEmpty
        | _ => false))

/-- `/^(file|https?|mailto|tel|data|#)/i.test(href)`
(`markdown.ts:132`); as a prefix test `https?` reduces to `http`. -/
def lowerStartsAny (href : List Char) : Bool :=
  ["file", "http", "mailto", "tel", "data", "#"].any
    (fun p => p.toList.isPrefixOf (href.map Char.toLower))

/-- The symbol-reference classification (`markdown.ts:128-132`). -/
def symbolLike (href : List Char) : Bool :=
  decide (0 < href.length) && decide (href.length < 200) &&
    !containsSubL "//".toList href && !lowerStartsAny href

/-- `LinkTransform` (`markdown.ts:40-47`). -/
structure LinkTransform where
  href : List Char
  path : Option (List Char) := none
  line : Option Nat := none
  col : Option Nat := none
  endLine : Option Nat := none
  symbol : Option (List Char) := none
deriving DecidableEq, Repr

/-- The `rangeMatch` early return (`markdown.ts:66-79`). -/
def rangeTransform (href : List Char) : Option LinkTransform :=
  match matchRange href with
  | some (p, l, e) =>
    some ⟨commandHref (jsonArgs4 (normalizePath p) l 1 (some e)),
      some (normalizePath p), some l, some 1, some e, none⟩
  | none => none

/-- The `m` early return (`markdown.ts:80-91`); under the greedy path
group the optional column group never captures, so `col` is 1. -/
def lineColTransform (href : List Char) : Option LinkTransform :=
  match matchLineCol href with
  | some (p, l) =>
    some ⟨commandHref (jsonArgs3 (normalizePath p) l 1),
      some (normalizePath p), some l, some 1, none, none⟩
  | none => none

/-- The `embedded` early return (`markdown.ts:92-116`). -/
def embeddedTransform (href : List Char) : Option LinkTransform :=
  match findEmbedded href.length href with
  | some m =>
    match m.endLine with
    | some e =>
      some ⟨commandHref (jsonArgs4 (normalizePath m.path) m.line 1 (some e)),
        some (normalizePath m.path), some m.line, some 1, some e, none⟩
    | none =>
      some ⟨commandHref (jsonArgs3 (normalizePath m.path) m.line (m.col.getD 1)),
        some (normalizePath m.path), some m.line, some (m.col.getD 1), none, none⟩
  | none => none

/-- The `bareFile` early return (`markdown.ts:117-126`). -/
def bareFileTransform (href : List Char) : Option LinkTransform :=
  if bareFileOk href then
    some ⟨commandHref (jsonArgs3 (normalizePath href) 1 1),
      some (normalizePath href), some 1, some 1, none, none⟩
  else none

/-- The four sequential early returns guarded by
`!href.includes("//")` (`markdown.ts:65-127`). -/
def pathMatches (href : List Char) : Option LinkTransform :=
  match rangeTransform href with
  | some t => some t
  | none =>
    match lineColTransform href with
    | some t => some t
    | none =>
      match embeddedTransform href with
      | some t => some t
      | none => bareFileTransform href

/-- `transformLinkHref` (`markdown.ts:53-137`). -/
def transformLinkHref (href : List Char) : LinkTransform :=
  if "file:".toList.isPrefixOf href then
    ⟨commandHref (jsonArgs3 (normalizePath (href.drop 5)) 1 1),
      some (normalizePath (href.drop 5)), some 1, some 1, none, none⟩
  else
    match (if containsSubL "//".toList href then none else pathMatches href) with
    | some t => t
    | none =>
      if symbolLike href then ⟨"#".toList, none, none, none, none, some href⟩
      else ⟨href, none, none, none, none, none⟩

/-- `isAllowedFileLink` (`markdown.ts:207-219`).  A missing
allow-list admits everything; with an allow-list, a missing or
non-positive line is rejected, a range uses the `path:start-end` key
and otherwise the `path:line` key.  The allow-list `Set` is modelled
as a list consulted by membership; parsed lines are naturals, so
`line <= 0` is `line = 0`. -/
def isAllowedFileLink (pathValue : List Char) (line endLine : Option Nat)
    (allowedLinks : Option (List (List Char))) : Bool :=
  match allowedLinks with
  | none => true
  | some al =>
    match line with
    | none => false
    | some l =>
      if l = 0 then false
      else
        match endLine with
        | some e =>
          if l ≤ e then al.contains (pathValue ++ ':' :: natStr l ++ '-' :: natStr e)
          else al.contains (pathValue ++ ':' :: natStr l)
        | none => al.contains (pathValue ++ ':' :: natStr l)

/-- Full-string check of the numeric tail
`\d+(?:-\d+)?(?::\d+)?` (as used anchored at the end of a pattern). -/
def numTailOk (t : List Char) : Bool :=
  let d1 := t.takeWhile Char.isDigit
  if d1.isEmpty then false
  else
    match t.drop d1.length with
    | [] => true
    | '-' :: u =>
      let d2 := u.takeWhile Char.isDigit
      if d2.isEmpty then false
      else
        (match u.drop d2.length with
         | [] => true
         | ':' :: v => !v.isEmpty && v.all Char.isDigit
         | _ => false)
    | ':' :: v => !v.isEmpty && v.all Char.isDigit
    | _ => false

/-- All decompositions `s = pre ++ ":" ++ post`. -/
def colonSplits : List Char → List (List Char × List Char)
  | [] => []
  | c :: cs =>
    (if c = ':' then [(([] : List Char), cs)] else []) ++
      (colonSplits cs).map (fun pr => (c :: pr.1, pr.2))

/-- `/^\[[^\]]+\.\w+:\d+(?:-\d+)?(?::\d+)?\]$/.test(text)`
(`markdown.ts:201`): brackets around a path-dot-extension-colon-lines
form, the part before the dot free of `]`. -/
def isWrappedPathLine (text : List Char) : Bool :=
  match text with
  | '[' :: rest =>
    match rest.reverse with
    | ']' :: midr =>
      (colonSplits midr.reverse).any (fun pr =>
        numTailOk pr.2 &&
          (let wr := pr.1.reverse.takeWhile isWordChar
           !wr.isEmpty &&
             (match pr.1.reverse.drop wr.length with
              | '.' :: cr => !cr.isEmpty && cr.all (fun c => c ≠ ']')
              | _ => false)))
    | _ => false
  | _ => false

/-- `stripWrappedPathLineBrackets` (`markdown.ts:200-205`). -/
def stripWrappedPathLineBrackets (text : List Char) : List Char :=
  if isWrappedPathLine text then (text.drop 1).dropLast else text

/-- The unanchored `/:(\d+)(?:-(\d+))?(?::(\d+))?/` search on the
link text (`markdown.ts:227`): first colon followed by a digit;
greedy groups; the column defaults to 1. -/
def findTextMatch : List Char → Option (Nat × Option Nat × Nat)
  | [] => none
  | ':' :: rest =>
    let d1 := rest.takeWhile Char.isDigit
    if d1.isEmpty then findTextMatch rest
    else
      let t2 := rest.drop d1.length
      let er := match t2 with
        | '-' :: u =>
          let d2 := u.takeWhile Char.isDigit
          if d2.isEmpty then ((none : Option Nat), t2)
          else (some (digitsToNat d2), u.drop d2.length)
        | _ => ((none : Option Nat), t2)
      let c := match er.2 with
        | ':' :: v =>
          let d3 := v.takeWhile Char.isDigit
          if d3.isEmpty then 1 else digitsToNat d3
        | _ => 1
      some (digitsToNat d1, er.1, c)
  | _ :: rest => findTextMatch rest

/-- The lookahead `(?=$|[^\d:])`. -/
def lookaheadOk : List Char → Bool
  | [] => true
  | c :: _ => !(c.isDigit || c = ':')

/-- Matching of `(\d+(?:-\d+)?(?::\d+)?)(?=$|[^\d:])` right after a
colon (`markdown.ts:258`), with the engine's backtracking order:
range-and-column first, then range only, then column only, then the
bare line number (shortening a maximal digit run never helps the
lookahead, so only maximal runs are considered). -/
def lineNumAtColon (rest : List Char) : Option (List Char) :=
  let d1 := rest.takeWhile Char.isDigit
  if d1.isEmpty then none
  else
    let t2 := rest.drop d1.length
    match t2 with
    | '-' :: u =>
      let d2 := u.takeWhile Char.isDigit
      if d2.isEmpty then some d1
      else
        let t3 := u.drop d2.length
        match t3 with
        | ':' :: v =>
          let d3 := v.takeWhile Char.isDigit
          if !d3.isEmpty && lookaheadOk (v.drop d3.length) then
            some (d1 ++ '-' :: d2 ++ ':' :: d3)
          else some d1
        | _ =>
          if lookaheadOk t3 then some (d1 ++ '-' :: d2) else some d1
    | ':' :: v =>
      let d3 := v.takeWhile Char.isDigit
      if !d3.isEmpty && lookaheadOk (v.drop d3.length) then some (d1 ++ ':' :: d3)
      else none
    | _ => some d1

/-- Leftmost match of the line-number suffix pattern on the rendered
link text (`markdown.ts:258`); the returned string is the whole
match, colon included. -/
def findLineNum : List Char → Option (List Char)
  | [] => none
  | ':' :: rest =>
    (match lineNumAtColon rest with
     | some m => some (':' :: m)
     | none => findLineNum rest)
  | _ :: rest => findLineNum rest

/-- The `title` attribute of the anchor (`markdown.ts:249`); a null
or empty title is falsy and produces nothing. -/
def titleAttr (title : Option (List Char)) : List Char :=
  match title with
  | some t => if t.isEmpty then [] else " title=\"".toList ++ escapeHtml t ++ "\"".toList
  | none => []

/-- The data attributes of the anchor (`markdown.ts:250-253`). -/
def dataAttrs (t : LinkTransform) : List Char :=
  match t.path with
  | some p =>
    " data-dw-path=\"".toList ++ escapeHtml p ++ "\" data-dw-line=\"".toList ++
      natStr (t.line.getD 1) ++ "\" data-dw-col=\"".toList ++
      natStr (t.col.getD 1) ++ "\"".toList ++
      (match t.endLine with
       | some e => " data-dw-line-end=\"".toList ++ natStr e ++ "\"".toList
       | none => [])
  | none => []

/-- The custom `renderer.link` installed by `buildRenderer`
(`markdown.ts:221-267`): classify the href; when it resolved to a
file at line 1, re-derive line/column/end from the link text; gate
file links through the allow-list (degrading to the plain text);
otherwise emit the anchor with data attributes, bracket-stripped
display text, a highlighted line-number suffix, and `#` as the href
of symbol placeholders. -/
def rendererLink (allowedLinks : Option (List (List Char))) (href : List Char)
    (title : Option (List Char)) (text : List Char) : List Char :=
  let t0 := transformLinkHref href
  let t := if t0.path ≠ none ∧ t0.line = some 1 then
      match findTextMatch text with
      | some (l, e, c) =>
        ⟨commandHref (jsonArgs4 (t0.path.getD []) l c e),
          t0.path, some l, some c, e, t0.symbol⟩
      | none => t0
    else t0
  if t.path ≠ none ∧
      isAllowedFileLink (t.path.getD []) t.line t.endLine allowedLinks = false then
    text
  else
    let displayText := stripWrappedPathLineBrackets text
    let inner0 := if displayText ≠ text then escapeHtml displayText else text
    let inner := if t.path ≠ none ∧ 0 < t.line.getD 0 then
        match findLineNum inner0 with
        | some m => inner0.take (inner0.length - m.length) ++
            "<span class=\"dw-line-number\">".toList ++ m ++ "</span>".toList
        | none => inner0
      else inner0
    let aHref := if t.symbol ≠ none then "#".toList else t.href
    "<a href=\"".toList ++ escapeHtml aHref ++ "\"".toList ++ dataAttrs t ++
      (match t.symbol with
       | some sym => " data-dw-symbol=\"".toList ++ escapeHtml sym ++ "\"".toList
       | none => []) ++ titleAttr title ++ ">".toList ++ inner ++ "</a>".toList

def tripleBacktick : List Char := [backtickChar, backtickChar, backtickChar]

/-- An opening fence at the head of the segment:
`/^```[\w]*\n/` (`markdown.ts:157/184`); returns the opener
(including its newline) and the remainder. -/
def matchFenceOpen (s : List Char) : Option (List Char × List Char) :=
  match s with
  | c1 :: c2 :: c3 :: rest =>
    if c1 = backtickChar ∧ c2 = backtickChar ∧ c3 = backtickChar then
      (let w := rest.takeWhile isWordChar
       match rest.drop w.length with
       | '\n' :: r3 => some (c1 :: c2 :: c3 :: (w ++ ['\n']), r3)
       | _ => none)
    else none
  | _ => none

/-- Leftmost occurrence of a triple backtick (the lazy body of
`/```[\w]*\n[\s\S]*?```/` ends at the first one). -/
def findTriple : List Char → Option (List Char × List Char)
  | [] => none
  | c :: cs =>
    if tripleBacktick.isPrefixOf (c :: cs) then some ([], cs.drop 2)
    else
      match findTriple cs with
      | some (pre, rest) => some (c :: pre, rest)
      | none => none

/-- Leftmost match of the fence-block pattern
`/```[\w]*\n[\s\S]*?```/` (`markdown.ts:146/173`): the earliest
opening fence whose body reaches a closing triple backtick.  If the
first opening fence has no closing triple, no later start can match
either (a later opener's backticks would have served as the close),
so the search fails. -/
def findFence : List Char → Option (List Char × List Char × List Char)
  | [] => none
  | c :: cs =>
    match matchFenceOpen (c :: cs) with
    | some (opener, body) =>
      (match findTriple body with
       | some (inner, rest) => some ([], opener ++ inner ++ tripleBacktick, rest)
       | none => none)
    | none =>
      match findFence cs with
      | some (pre, block, rest) => some (c :: pre, block, rest)
      | none => none

/-- The `while ((m = re.exec(md)))` loop of both linkify passes
(`markdown.ts:144-153/171-180`): the alternating list
`[pre1, block1, pre2, block2, ..., last]`. -/
def splitFenceBlocks : Nat → List Char → List (List Char)
  | 0, s => [s]
  | fuel + 1, s =>
    match findFence s with
    | none => [s]
    | some (pre, block, rest) => pre :: block :: splitFenceBlocks fuel rest

/-- The per-segment fence test `/^```[\w]*\n/.test(segment)`
(`markdown.ts:157/184`). -/
def startsWithFenceOpen (seg : List Char) : Bool := (matchFenceOpen seg).isSome

def isBtBodyChar (c : Char) : Bool := !isJsWhitespace c && c ≠ backtickChar

/-- Existence of a decomposition of a backtick-free, whitespace-free
run as `([^\s`]+\.\w+):\d+(?:-\d+)?(?::\d+)?` spanning the whole run
(the closing backtick sits right after the run, and every pattern
character is a run character, so the pattern must cover the run). -/
def backtickContentOk (run : List Char) : Bool :=
  (colonSplits run).any (fun pr =>
    numTailOk pr.2 &&
      (let wr := pr.1.reverse.takeWhile isWordChar
       !wr.isEmpty &&
         (match pr.1.reverse.drop wr.length with
          | '.' :: cr => !cr.isEmpty
          | _ => false)))

/-- Matching of `BACKTICK_PATH_LINE` (`markdown.ts:140-141`) right
after an opening backtick: content and remainder after the closing
backtick. -/
def matchBacktickRef (cs : List Char) : Option (List Char × List Char) :=
  let run := cs.takeWhile isBtBodyChar
  match cs.drop run.length with
  | b :: rest2 =>
    if b = backtickChar ∧ backtickContentOk run then some (run, rest2) else none
  | [] => none

/-- The replacement `[content](content)` (`markdown.ts:160/190`). -/
def wrapLink (content : List Char) : List Char :=
  '[' :: content ++ ']' :: '(' :: content ++ [')']

/-- The global `BACKTICK_PATH_LINE` replacement on one non-fence
segment (`markdown.ts:158-161`): references already carrying a URI
scheme separator are left untouched. -/
def replaceBacktickRefs : Nat → List Char → List Char
  | 0, s => s
  | fuel + 1, s =>
    match s with
    | [] => []
    | c :: cs =>
      if c = backtickChar then
        match matchBacktickRef cs with
        | some (content, rest) =>
          (if containsSubL "://".toList content then
            backtickChar :: content ++ [backtickChar]
           else wrapLink content) ++ replaceBacktickRefs fuel rest
        | none => c :: replaceBacktickRefs fuel cs
      else c :: replaceBacktickRefs fuel cs

/-- `linkifyBacktickPathLine` (`markdown.ts:143-164`). -/
def linkifyBacktickPathLine (md : List Char) : List Char :=
  ((splitFenceBlocks (md.length + 1) md).map (fun seg =>
    if startsWithFenceOpen seg then seg
    else replaceBacktickRefs (seg.length + 1) seg)).flatten

/-- The global `NAKED_PATH_LINE` replacement (`markdown.ts:186-192`)
on one backtick-delimited part, carrying the previous character of
the original text for the lookbehind `(?<![\x5b\x60])`; at the start
of a part there is no previous character and the lookbehind
passes. -/
def replaceNakedRefs : Nat → Option Char → List Char → List Char
  | 0, _, s => s
  | fuel + 1, prev, s =>
    match s with
    | [] => []
    | c :: cs =>
      if (match prev with
          | none => true
          | some p => !(p = '[' || p = backtickChar)) then
        match matchPathLineAt (c :: cs) with
        | some m =>
          (if containsSubL "://".toList m.matched then m.matched
           else wrapLink m.matched) ++
            replaceNakedRefs fuel (some (m.matched.getLastD c)) m.rest
        | none => c :: replaceNakedRefs fuel (some c) cs
      else c :: replaceNakedRefs fuel (some c) cs

/-- `segment.split("`")` (`markdown.ts:185`). -/
def splitOnBacktick : List Char → List (List Char)
  | [] => [[]]
  | c :: cs =>
    let r := splitOnBacktick cs
    if c = backtickChar then [] :: r else (c :: r.headD []) :: r.tail

/-- Apply `f` to the parts at even indices (the text between inline
code spans, `markdown.ts:186-193`). -/
def mapEvenParts (f : List Char → List Char) : Bool → List (List Char) → List (List Char)
  | _, [] => []
  | even, p :: ps => (if even then f p else p) :: mapEvenParts f (!even) ps

/-- `linkifyNakedPathLine` (`markdown.ts:170-197`). -/
def linkifyNakedPathLine (md : List Char) : List Char :=
  ((splitFenceBlocks (md.length + 1) md).map (fun seg =>
    if startsWithFenceOpen seg then seg
    else List.intercalate [backtickChar]
      (mapEvenParts (fun p => replaceNakedRefs (p.length + 1) none p) true
        (splitOnBacktick seg)))).flatten

/-- Modelled from the spec: label scanning of a markdown inline link
by the Markup Renderer (the third-party `marked` engine, not
repository code).  The label may contain bracketed sub-spans; it ends
at the first unbalanced closing bracket. -/
def scanLabel : List Char → Nat → List Char → Option (List Char × List Char)
  | [], _, _ => none
  | c :: cs, depth, acc =>
    if c = ']' then
      (if depth = 0 then some (acc.reverse, cs)
       else scanLabel cs (depth - 1) (c :: acc))
    else if c = '[' then scanLabel cs (depth + 1) (c :: acc)
    else scanLabel cs depth (c :: acc)

/-- Modelled from the spec: destination scanning of a markdown
inline link; no whitespace, parentheses balanced, ending at the
unbalanced closing parenthesis. -/
def scanHref : List Char → Nat → List Char → Option (List Char × List Char)
  | [], _, _ => none
  | c :: cs, depth, acc =>
    if c = ')' then
      (if depth = 0 then some (acc.reverse, cs)
       else scanHref cs (depth - 1) (c :: acc))
    else if c = '(' then scanHref cs (depth + 1) (c :: acc)
    else if isJsWhitespace c then none
    else scanHref cs depth (c :: acc)

/-- Modelled from the spec: recognition of `[label](href)` at the
head of the text. -/
def tryLink : List Char → Option (List Char × List Char × List Char)
  | '[' :: rest =>
    (match scanLabel rest 0 [] with
     | some (label, r1) =>
       (match r1 with
        | '(' :: r2 =>
          (match scanHref r2 0 [] with
           | some (href, r3) => some (label, href, r3)
           | none => none)
        | _ => none)
     | none => none)
  | _ => none

/-- Modelled from the spec: the inline pass of the Markup Renderer.
Every link encountered during markup generation is rendered through
the Link Authorization Filter (`rendererLink`, the repository's
`renderer.link` hook); like `marked`, a link label is itself
inline-rendered, so a link nested in a label is rendered through the
hook as well; all other characters pass through.  (The engine's
escaping of special characters in plain text does not arise on the
inputs considered and is not modelled.) -/
def mdInline (allowed : Option (List (List Char))) : Nat → List Char → List Char
  | 0, s => s
  | _, [] => []
  | fuel + 1, c :: cs =>
    if c = '[' then
      match tryLink (c :: cs) with
      | some (label, href, rest) =>
        rendererLink allowed href none (mdInline allowed fuel label) ++
          mdInline allowed fuel rest
      | none => c :: mdInline allowed fuel cs
    else c :: mdInline allowed fuel cs

/-- Modelled from the spec: the Markup Renderer wraps a single-line
input in one paragraph element. -/
def markedRenderModel (allowed : Option (List (List Char))) (md : List Char) :
    List Char :=
  "<p>".toList ++ mdInline allowed (md.length + 1) md ++ "</p>\n".toList

/-- Modelled from the spec: the Sanitizer strips any element or
attribute not on its fixed allow-list; the anchors, `data-dw-*`
attributes and paragraph markup produced by this renderer are all on
that list, so on these outputs it acts as the identity. -/
def sanitizeModel (html : List Char) : List Char := html

/-- The `try`/`catch` shell of `renderMarkdown` (`markdown.ts:271-284`),
parameterized over the fallible rendering core: a successful core
result is returned as-is, any internal failure degrades to the input
escaped as plain text in a `<p>` element. -/
def renderMarkdownWith (core : List Char → Except (List Char) (List Char))
    (md : List Char) : List Char :=
  match core md with
  | .ok html => html
  | .error _ => "<p>".toList ++ escapeHtml md ++ "</p>".toList

/-- `renderMarkdown` (`markdown.ts:271-284`): both linkify passes,
then the (spec-modelled) markdown engine with the custom renderer,
then the (spec-modelled) sanitizer, inside the `try`/`catch`
shell. -/
def renderMarkdown (allowed : Option (List (List Char))) (md : List Char) :
    List Char :=
  renderMarkdownWith
    (fun m => .ok (sanitizeModel (markedRenderModel allowed
      (linkifyNakedPathLine (linkifyBacktickPathLine m))))) md

/-- A fenced code block with the given body (no info string). -/
def fenceWrap (body : List Char) : List Char :=
  backtickChar :: backtickChar :: backtickChar :: '\n' ::
    (body ++ '\n' :: tripleBacktick)

theorem matchFenceOpen_fenceWrap (body : List Char) :
    matchFenceOpen (fenceWrap body) =
      some ([backtickChar, backtickChar, backtickChar, '\n'],
        body ++ '\n' :: tripleBacktick) := by
  have hw : isWordChar '\n' = false := by decide
  simp [fenceWrap, matchFenceOpen, List.takeWhile_cons, hw]

theorem findTriple_cons (c : Char) (cs : List Char) :
    findTriple (c :: cs) =
      if tripleBacktick.isPrefixOf (c :: cs) = true then some ([], cs.drop 2)
      else
        match findTriple cs with
        | some (pre, rest) => some (c :: pre, rest)
        | none => none := rfl

theorem findTriple_no_bt (xs rest : List Char) (h : backtickChar ∉ xs) :
    findTriple (xs ++ (tripleBacktick ++ rest)) = some (xs, rest) := by
  induction xs with
  | nil =>
    simp only [List.nil_append, tripleBacktick, List.cons_append]
    rw [findTriple_cons]
    simp [List.isPrefixOf, tripleBacktick]
  | cons c cs ih =>
    simp only [List.mem_cons, not_or] at h
    have hne : (backtickChar == c) = false := by
      simp only [beq_eq_false_iff_ne]
      exact h.1
    have hpre : tripleBacktick.isPrefixOf (c :: (cs ++ (tripleBacktick ++ rest))) = false := by
      simp [tripleBacktick, List.isPrefixOf, hne]
    rw [List.cons_append, findTriple_cons, hpre]
    simp only [Bool.false_eq_true, if_false]
    rw [ih h.2]

theorem findFence_cons (c : Char) (cs : List Char) :
    findFence (c :: cs) =
      match matchFenceOpen (c :: cs) with
      | some (opener, body) =>
        (match findTriple body with
         | some (inner, rest) => some ([], opener ++ inner ++ tripleBacktick, rest)
         | none => none)
      | none =>
        match findFence cs with
        | some (pre, block, rest) => some (c :: pre, block, rest)
        | none => none := rfl

theorem findFence_fenceWrap (body : List Char) (h : backtickChar ∉ body) :
    findFence (fenceWrap body) = some ([], fenceWrap body, []) := by
  have hopen := matchFenceOpen_fenceWrap body
  have htrip : findTriple (body ++ '\n' :: tripleBacktick) =
      some (body ++ ['\n'], []) := by
    have hshape : body ++ '\n' :: tripleBacktick =
        (body ++ ['\n']) ++ (tripleBacktick ++ []) := by simp
    rw [hshape]
    refine findTriple_no_bt (body ++ ['\n']) [] ?_
    intro hmem
    rcases List.mem_append.mp hmem with h1 | h1
    · exact h h1
    · simp only [List.mem_singleton] at h1
      exact absurd h1 (by decide)
  show findFence (backtickChar :: (backtickChar :: backtickChar :: '\n' ::
    (body ++ '\n' :: tripleBacktick))) = _
  rw [findFence_cons]
  rw [show matchFenceOpen (backtickChar :: (backtickChar :: backtickChar :: '\n' ::
    (body ++ '\n' :: tripleBacktick))) =
    some ([backtickChar, backtickChar, backtickChar, '\n'],
      body ++ '\n' :: tripleBacktick) from hopen]
  simp only [htrip]
  simp [fenceWrap, tripleBacktick]

theorem splitFenceBlocks_nil (fuel : Nat) : splitFenceBlocks fuel [] = [[]] := by
  cases fuel with
  | zero => rfl
  | succ n => simp [splitFenceBlocks, findFence]

theorem splitFenceBlocks_fenceWrap (body : List Char) (h : backtickChar ∉ body)
    (fuel : Nat) :
    splitFenceBlocks (fuel + 1) (fenceWrap body) = [[], fenceWrap body, []] := by
  simp only [splitFenceBlocks, findFence_fenceWrap body h]
  rw [splitFenceBlocks_nil]

theorem startsWithFenceOpen_fenceWrap (body : List Char) :
    startsWithFenceOpen (fenceWrap body) = true := by
  simp [startsWithFenceOpen, matchFenceOpen_fenceWrap body]

theorem startsWithFenceOpen_nil : startsWithFenceOpen [] = false := rfl

theorem replaceBacktickRefs_nil (fuel : Nat) : replaceBacktickRefs fuel [] = [] := by
  cases fuel with
  | zero => rfl
  | succ n => rfl

theorem replaceNakedRefs_nil (fuel : Nat) (prev : Option Char) :
    replaceNakedRefs fuel prev [] = [] := by
  cases fuel with
  | zero => rfl
  | succ n => rfl

theorem linkifyBacktick_fenceWrap (body : List Char) (h : backtickChar ∉ body) :
    linkifyBacktickPathLine (fenceWrap body) = fenceWrap body := by
  unfold linkifyBacktickPathLine
  rw [show (fenceWrap body).length + 1 = (fenceWrap body).length + 1 from rfl,
    splitFenceBlocks_fenceWrap body h]
  simp only [List.map, startsWithFenceOpen_nil, startsWithFenceOpen_fenceWrap body,
    Bool.false_eq_true, if_false, if_true, replaceBacktickRefs_nil]
  simp

theorem linkifyNaked_fenceWrap (body : List Char) (h : backtickChar ∉ body) :
    linkifyNakedPathLine (fenceWrap body) = fenceWrap body := by
  unfold linkifyNakedPathLine
  rw [splitFenceBlocks_fenceWrap body h]
  simp only [List.map, startsWithFenceOpen_nil, startsWithFenceOpen_fenceWrap body,
    Bool.false_eq_true, if_false, if_true, splitOnBacktick, mapEvenParts,
    replaceNakedRefs_nil, List.intercalate]
  simp

/-- C6.  Fenced code is never linkified: a fenced code block (here
with any backtick-free body, hence containing any bare location
reference such as `src/b.ts:7`) is left unchanged by both linkify
passes of `renderMarkdown`, individually and composed; the same
reference text outside any fence is rewritten into a markdown
link. -/
theorem fenced_code_never_linkified :
    (∀ body : List Char, backtickChar ∉ body →
      linkifyBacktickPathLine (fenceWrap body) = fenceWrap body ∧
      linkifyNakedPathLine (fenceWrap body) = fenceWrap body ∧
      linkifyNakedPathLine (linkifyBacktickPathLine (fenceWrap body)) =
        fenceWrap body) ∧
    linkifyNakedPathLine (linkifyBacktickPathLine "src/b.ts:7".toList) =
      "[src/b.ts:7](src/b.ts:7)".toList := by
  refine ⟨fun body hb => ⟨linkifyBacktick_fenceWrap body hb,
    linkifyNaked_fenceWrap body hb, ?_⟩, by decide⟩
  rw [linkifyBacktick_fenceWrap body hb, linkifyNaked_fenceWrap body hb]

theorem fenced_code_never_linkified_witness :
    linkifyBacktickPathLine (fenceWrap "src/b.ts:7".toList) =
      fenceWrap "src/b.ts:7".toList ∧
    linkifyNakedPathLine (fenceWrap "src/b.ts:7".toList) =
      fenceWrap "src/b.ts:7".toList ∧
    linkifyNakedPathLine (linkifyBacktickPathLine (fenceWrap "src/b.ts:7".toList)) =
      fenceWrap "src/b.ts:7".toList :=
  fenced_code_never_linkified.1 "src/b.ts:7".toList (by decide)

/-- The C2 input: the backtick-wrapped reference. -/
def c2Input : List Char := backtickChar :: ("src/a.ts:10-12".toList ++ [backtickChar])

set_option maxRecDepth 100000 in
/-- C2.  Allow-list gating of location links: rendering the
backtick-wrapped `src/a.ts:10-12` with an allow-list containing
`src/a.ts:10-12` produces an active (command) anchor whose data
attributes encode path `src/a.ts`, start line 10 and end line 12;
rendering it with an empty allow-list produces exactly the literal
paragraph text with no anchor and no data attributes. -/
theorem allow_list_gating :
    (containsSubL "<a href=\"command:symfocus.openFile?".toList
        (renderMarkdown (some ["src/a.ts:10-12".toList]) c2Input) = true ∧
      containsSubL
        " data-dw-path=\"src/a.ts\" data-dw-line=\"10\" data-dw-col=\"1\" data-dw-line-end=\"12\">".toList
        (renderMarkdown (some ["src/a.ts:10-12".toList]) c2Input) = true) ∧
    (renderMarkdown (some []) c2Input = "<p>src/a.ts:10-12</p>\n".toList ∧
      containsSubL "<a".toList (renderMarkdown (some []) c2Input) = false) := by
  decide

theorem replaceAllChar_not_mem (c : Char) (rep : List Char) (s : List Char)
    (x : Char) (hrep : x ∉ rep) (hx : x = c ∨ x ∉ s) :
    x ∉ replaceAllChar c rep s := by
  induction s with
  | nil => simp [replaceAllChar]
  | cons y ys ih =>
    simp only [replaceAllChar]
    intro hmem
    rcases List.mem_append.mp hmem with h1 | h1
    · by_cases hy : y = c
      · rw [if_pos hy] at h1; exact hrep h1
      · rw [if_neg hy] at h1
        simp only [List.mem_singleton] at h1
        rcases hx with hx | hx
        · exact hy (h1 ▸ hx)
        · exact hx (by simp [h1])
    · refine ih ?_ h1
      rcases hx with hx | hx
      · exact Or.inl hx
      · exact Or.inr (fun hmm => hx (List.mem_cons_of_mem y hmm))

theorem escapeHtml_safe (md : List Char) :
    '<' ∉ escapeHtml md ∧ '>' ∉ escapeHtml md ∧ '"' ∉ escapeHtml md := by
  unfold escapeHtml
  refine ⟨?_, ?_, ?_⟩
  · refine replaceAllChar_not_mem _ _ _ _ (by decide) (Or.inr ?_)
    refine replaceAllChar_not_mem _ _ _ _ (by decide) (Or.inr ?_)
    exact replaceAllChar_not_mem _ _ _ _ (by decide) (Or.inl rfl)
  · refine replaceAllChar_not_mem _ _ _ _ (by decide) (Or.inr ?_)
    exact replaceAllChar_not_mem _ _ _ _ (by decide) (Or.inl rfl)
  · exact replaceAllChar_not_mem _ _ _ _ (by decide) (Or.inl rfl)

/-- C7.  `renderMarkdown` never fails its caller: the `try`/`catch`
shell always returns a markup string; on any internal rendering
failure (any fallible core, any error) it returns the input escaped
as plain text wrapped in a `<p>` element, and the escaped text is
free of raw `<`, `>` and `"` characters. -/
theorem render_never_fails :
    (∀ (core : List Char → Except (List Char) (List Char)) (md e : List Char),
      core md = .error e →
      renderMarkdownWith core md = "<p>".toList ++ escapeHtml md ++ "</p>".toList) ∧
    (∀ md : List Char,
      '<' ∉ escapeHtml md ∧ '>' ∉ escapeHtml md ∧ '"' ∉ escapeHtml md) := by
  refine ⟨fun core md e h => ?_, escapeHtml_safe⟩
  simp [renderMarkdownWith, h]

theorem render_never_fails_witness :
    renderMarkdownWith (fun _ => .error "boom".toList) "a<b\"c>".toList =
      "<p>".toList ++ escapeHtml "a<b\"c>".toList ++ "</p>".toList ∧
    ('<' ∉ escapeHtml "a<b\"c>".toList ∧ '>' ∉ escapeHtml "a<b\"c>".toList ∧
      '"' ∉ escapeHtml "a<b\"c>".toList) :=
  ⟨render_never_fails.1 (fun _ => .error "boom".toList) "a<b\"c>".toList
    "boom".toList rfl, render_never_fails.2 "a<b\"c>".toList⟩

theorem rangeTransform_symbol (href : List Char) (t : LinkTransform)
    (h : rangeTransform href = some t) : t.symbol = none := by
  unfold rangeTransform at h
  split at h
  · obtain rfl := Option.some.inj h
    rfl
  · exact absurd h (by simp)

theorem lineColTransform_symbol (href : List Char) (t : LinkTransform)
    (h : lineColTransform href = some t) : t.symbol = none := by
  unfold lineColTransform at h
  split at h
  · obtain rfl := Option.some.inj h
    rfl
  · exact absurd h (by simp)

theorem embeddedTransform_symbol (href : List Char) (t : LinkTransform)
    (h : embeddedTransform href = some t) : t.symbol = none := by
  unfold embeddedTransform at h
  split at h
  · split at h <;> (obtain rfl := Option.some.inj h; rfl)
  · exact absurd h (by simp)

theorem bareFileTransform_symbol (href : List Char) (t : LinkTransform)
    (h : bareFileTransform href = some t) : t.symbol = none := by
  unfold bareFileTransform at h
  split at h
  · obtain rfl := Option.some.inj h
    rfl
  · exact absurd h (by simp)

theorem pathMatches_symbol_none (href : List Char) (t : LinkTransform)
    (h : pathMatches href = some t) : t.symbol = none := by
  unfold pathMatches at h
  split at h
  · next t1 heq =>
    obtain rfl := Option.some.inj h
    exact rangeTransform_symbol href _ heq
  · split at h
    · next t1 heq =>
      obtain rfl := Option.some.inj h
      exact lineColTransform_symbol href _ heq
    · split at h
      · next t1 heq =>
        obtain rfl := Option.some.inj h
        exact embeddedTransform_symbol href _ heq
      · exact bareFileTransform_symbol href _ h

theorem transformLinkHref_symbol (href s : List Char)
    (h : (transformLinkHref href).symbol = some s) :
    transformLinkHref href = ⟨"#".toList, none, none, none, none, some href⟩ ∧
      s = href := by
  by_cases hf : "file:".toList <+: href
  · exfalso
    have hfb : ("file:".toList.isPrefixOf href) = true :=
      List.isPrefixOf_iff_prefix.mpr hf
    unfold transformLinkHref at h
    rw [if_pos hfb] at h
    exact absurd h (by simp)
  · have hfb : ¬ ("file:".toList.isPrefixOf href = true) := fun hh =>
      hf (List.isPrefixOf_iff_prefix.mp hh)
    unfold transformLinkHref at h ⊢
    rw [if_neg hfb] at h ⊢
    cases hpm : (if containsSubL "//".toList href = true then none
        else pathMatches href) with
    | some t0 =>
      exfalso
      rw [hpm] at h
      simp only at h
      by_cases hc : containsSubL "//".toList href = true
      · rw [if_pos hc] at hpm
        exact absurd hpm (by simp)
      · rw [if_neg hc] at hpm
        rw [pathMatches_symbol_none href t0 hpm] at h
        exact absurd h (by simp)
    | none =>
      rw [hpm] at h
      by_cases hs : symbolLike href = true
      · simp only [hs, if_true] at h ⊢
        simp only [Option.some.injEq] at h
        exact ⟨by simp, h.symm⟩
      · exfalso
        have hs' : symbolLike href = false := by simpa using hs
        simp only [hs', Bool.false_eq_true, if_false] at h
        exact absurd h (by simp)

/-- C8.  Symbol-only links bypass the allow-list: whenever the link
target classifies as a symbol reference, the rendered output does not
depend on the allow-list at all (it is never consulted), and is
always the non-navigating placeholder anchor with href `#` carrying
the raw symbol text in a `data-dw-symbol` attribute (and no data
path/line attributes). -/
theorem symbol_links_bypass_allow_list
    (a1 a2 : Option (List (List Char))) (href : List Char)
    (title : Option (List Char)) (text : List Char) (s : List Char)
    (h : (transformLinkHref href).symbol = some s) :
    rendererLink a1 href title text = rendererLink a2 href title text ∧
    rendererLink a1 href title text =
      "<a href=\"".toList ++ "#".toList ++ "\"".toList ++
        " data-dw-symbol=\"".toList ++ escapeHtml href ++ "\"".toList ++
        titleAttr title ++ ">".toList ++
        (if stripWrappedPathLineBrackets text ≠ text then
          escapeHtml (stripWrappedPathLineBrackets text) else text) ++
        "</a>".toList := by
  obtain ⟨ht, hs⟩ := transformLinkHref_symbol href s h
  have hesc : escapeHtml ['#'] = ['#'] := by decide
  constructor
  · simp [rendererLink, ht, dataAttrs]
  · simp [rendererLink, ht, dataAttrs, hesc]
theorem symbol_links_bypass_allow_list_witness :
    rendererLink (some []) "myFunc".toList none "myFunc".toList =
      rendererLink (some ["x".toList]) "myFunc".toList none "myFunc".toList ∧
    rendererLink (some []) "myFunc".toList none "myFunc".toList =
      "<a href=\"".toList ++ "#".toList ++ "\"".toList ++
        " data-dw-symbol=\"".toList ++ escapeHtml "myFunc".toList ++ "\"".toList ++
        titleAttr none ++ ">".toList ++
        (if stripWrappedPathLineBrackets "myFunc".toList ≠ "myFunc".toList then
          escapeHtml (stripWrappedPathLineBrackets "myFunc".toList)
         else "myFunc".toList) ++ "</a>".toList :=
  symbol_links_bypass_allow_list (some []) (some ["x".toList]) "myFunc".toList
    none "myFunc".toList "myFunc".toList (by decide)

/-- C9.  A missing allow-list admits every file link
(`isAllowedFileLink` is unconditionally true when `allowedLinks` is
undefined), so with no options every `path:line` reference becomes an
active command link — unlike an empty set, which rejects every file
link and degrades it to plain text. -/
theorem missing_allow_list_admits_all :
    (∀ (p : List Char) (l e : Option Nat), isAllowedFileLink p l e none = true) ∧
    (∀ (p : List Char) (l e : Option Nat),
      isAllowedFileLink p l e (some []) = false) ∧
    containsSubL "<a href=\"command:".toList
      (renderMarkdown none "src/b.ts:7".toList) = true ∧
    renderMarkdown (some []) "src/b.ts:7".toList = "<p>src/b.ts:7</p>\n".toList := by
  refine ⟨fun p l e => rfl, fun p l e => ?_, by decide, by decide⟩
  cases l with
  | none => rfl
  | some lv =>
    cases e with
    | none => simp [isAllowedFileLink, List.contains]
    | some ev => simp [isAllowedFileLink, List.contains]

/-- C10's counterexample: `file://x` contains `//`, yet
`transformLinkHref` rewrites it into a file-open command href and
assigns it a path (the `file:` branch precedes the `//` guard). -/
theorem double_slash_counterexample :
    containsSubL "//".toList "file://x".toList = true ∧
    (transformLinkHref "file://x".toList).path = some "//x".toList ∧
    (transformLinkHref "file://x".toList).href ≠ "file://x".toList := by
  decide

/-- C10 (amended).  Any link href containing `//` that does not begin
with `file:` is never rewritten: `transformLinkHref` returns it with
its href unchanged and no path, line, column, end-line or symbol, so
the renderer never consults the allow-list and emits an ordinary
anchor with no data attributes. -/
theorem double_slash_never_rewritten (href : List Char)
    (h1 : containsSubL "//".toList href = true)
    (h2 : ("file:".toList.isPrefixOf href) = false) :
    transformLinkHref href = ⟨href, none, none, none, none, none⟩ ∧
    ∀ (allowed : Option (List (List Char))) (title : Option (List Char))
      (text : List Char),
      rendererLink allowed href title text =
        "<a href=\"".toList ++ escapeHtml href ++ "\"".toList ++
          titleAttr title ++ ">".toList ++
          (if stripWrappedPathLineBrackets text ≠ text then
            escapeHtml (stripWrappedPathLineBrackets text) else text) ++
          "</a>".toList := by
  have h1' : containsSubL ['/', '/'] href = true := h1
  have h2l : (['f', 'i', 'l', 'e', ':'].isPrefixOf href) = false := h2
  have h2' : ¬ (['f', 'i', 'l', 'e', ':'] <+: href) := fun hh => by
    have hb := List.isPrefixOf_iff_prefix.mpr hh
    rw [h2l] at hb
    exact Bool.false_ne_true hb
  have hsym : symbolLike href = false := by
    simp [symbolLike, h1']
  have ht : transformLinkHref href = ⟨href, none, none, none, none, none⟩ := by
    simp [transformLinkHref, h1', h2', hsym]
  refine ⟨ht, fun allowed title text => ?_⟩
  simp [rendererLink, ht, dataAttrs]

theorem double_slash_never_rewritten_witness :
    transformLinkHref "http://example.com/a.ts".toList =
      ⟨"http://example.com/a.ts".toList, none, none, none, none, none⟩ ∧
    rendererLink (some []) "http://example.com/a.ts".toList none "t".toList =
      "<a href=\"".toList ++ escapeHtml "http://example.com/a.ts".toList ++
        "\"".toList ++ titleAttr none ++ ">".toList ++
        (if stripWrappedPathLineBrackets "t".toList ≠ "t".toList then
          escapeHtml (stripWrappedPathLineBrackets "t".toList) else "t".toList) ++
        "</a>".toList :=
  ⟨(double_slash_never_rewritten "http://example.com/a.ts".toList
      (by decide) (by decide)).1,
   (double_slash_never_rewritten "http://example.com/a.ts".toList
      (by decide) (by decide)).2 (some []) none "t".toList⟩
